import Mathlib

/-!
Verification of the 2D particle simulation (src/main.rs).

The development shallowly embeds the Rust source into Lean: the `f32`
arithmetic of the source is idealised as exact real arithmetic, vectors
become pairs of reals, the mutable particle array becomes a `List Particle`
updated by index, and the ambient host reads (screen size, mouse state)
become an explicit `Env` record passed to `State.update`.
-/

noncomputable section

/-- 2D vector (macroquad/glam `Vec2`, components idealised as reals). -/
@[ext]
structure Vec2 where
  x : ℝ
  y : ℝ

instance : Add Vec2 := ⟨fun a b => ⟨a.x + b.x, a.y + b.y⟩⟩
instance : Sub Vec2 := ⟨fun a b => ⟨a.x - b.x, a.y - b.y⟩⟩
instance : Neg Vec2 := ⟨fun a => ⟨-a.x, -a.y⟩⟩
instance : Mul Vec2 := ⟨fun a b => ⟨a.x * b.x, a.y * b.y⟩⟩
instance : HMul Vec2 ℝ Vec2 := ⟨fun a s => ⟨a.x * s, a.y * s⟩⟩
instance : HDiv Vec2 ℝ Vec2 := ⟨fun a s => ⟨a.x / s, a.y / s⟩⟩

@[simp] theorem Vec2.add_x (a b : Vec2) : (a + b).x = a.x + b.x := rfl
@[simp] theorem Vec2.add_y (a b : Vec2) : (a + b).y = a.y + b.y := rfl
@[simp] theorem Vec2.sub_x (a b : Vec2) : (a - b).x = a.x - b.x := rfl
@[simp] theorem Vec2.sub_y (a b : Vec2) : (a - b).y = a.y - b.y := rfl
@[simp] theorem Vec2.neg_x (a : Vec2) : (-a).x = -a.x := rfl
@[simp] theorem Vec2.neg_y (a : Vec2) : (-a).y = -a.y := rfl
@[simp] theorem Vec2.mul_x (a b : Vec2) : (a * b).x = a.x * b.x := rfl
@[simp] theorem Vec2.mul_y (a b : Vec2) : (a * b).y = a.y * b.y := rfl
@[simp] theorem Vec2.smul_x (a : Vec2) (s : ℝ) : (a * s).x = a.x * s := rfl
@[simp] theorem Vec2.smul_y (a : Vec2) (s : ℝ) : (a * s).y = a.y * s := rfl
@[simp] theorem Vec2.div_x (a : Vec2) (s : ℝ) : (a / s).x = a.x / s := rfl
@[simp] theorem Vec2.div_y (a : Vec2) (s : ℝ) : (a / s).y = a.y / s := rfl

theorem Vec2.mk_add_mk (a b c d : ℝ) : (⟨a, b⟩ + ⟨c, d⟩ : Vec2) = ⟨a + c, b + d⟩ := rfl
theorem Vec2.mk_sub_mk (a b c d : ℝ) : (⟨a, b⟩ - ⟨c, d⟩ : Vec2) = ⟨a - c, b - d⟩ := rfl
theorem Vec2.neg_mk (a b : ℝ) : (-(⟨a, b⟩ : Vec2)) = ⟨-a, -b⟩ := rfl
theorem Vec2.mk_mul_mk (a b c d : ℝ) : ((⟨a, b⟩ : Vec2) * (⟨c, d⟩ : Vec2)) = ⟨a * c, b * d⟩ := rfl
theorem Vec2.mk_smul (a b s : ℝ) : ((⟨a, b⟩ : Vec2) * s) = (⟨a * s, b * s⟩ : Vec2) := rfl
theorem Vec2.mk_div (a b s : ℝ) : ((⟨a, b⟩ : Vec2) / s) = (⟨a / s, b / s⟩ : Vec2) := rfl

/-- glam `Vec2::dot`. -/
def Vec2.dot (a b : Vec2) : ℝ := a.x * b.x + a.y * b.y

/-- glam `Vec2::length`: `self.dot(self).sqrt()`. -/
def Vec2.length (a : Vec2) : ℝ := Real.sqrt (a.dot a)

/-- glam `Vec2::normalize`: `self * self.length().recip()`. -/
def Vec2.normalize (a : Vec2) : Vec2 := a * (1 / a.length)

/-- Opaque RGBA colour; the simulation never inspects it. -/
structure Color where
  r : ℝ
  g : ℝ
  b : ℝ
  a : ℝ

/-- The macroquad constant `WHITE`. -/
def WHITE : Color := ⟨1, 1, 1, 1⟩

/-- The source struct `Particle`. -/
@[ext]
structure Particle where
  pos : Vec2
  vel : Vec2
  radius : ℝ
  color : Color

/-- The source impl `Default for Particle`. -/
instance : Inhabited Particle := ⟨⟨⟨0, 0⟩, ⟨0, 0⟩, 10, WHITE⟩⟩

/-- The local `let elasticity = 0.8;` appearing twice in `State::update`. -/
def elasticity : ℝ := 0.8

/-- The pair-collision body of `State::update` (lines 206–234): given the
friction coefficient and particles `p1 = particles[i]`, `p2 = particles[j]`,
return their updated values. -/
def pairCollide (f : ℝ) (p1 p2 : Particle) : Particle × Particle :=
  let dist := (p1.pos - p2.pos).length
  let overlap := p1.radius + p2.radius - dist
  if overlap < 0 then (p1, p2)
  else if dist < 0.01 then (p1, p2)
  else
    let rel_vel := (p2.vel - p1.vel) * (0.5 : ℝ)
    let delta_pos := p2.pos - p1.pos
    let normal := delta_pos.normalize
    let q1pos := p1.pos - normal * overlap * (0.5 : ℝ)
    let q2pos := p2.pos + normal * overlap * (0.5 : ℝ)
    let vel_along_normal := normal * (normal.dot rel_vel)
    let vel_along_tangent := rel_vel - vel_along_normal
    ({ p1 with pos := q1pos,
               vel := p1.vel + rel_vel + vel_along_normal * elasticity
                        - vel_along_tangent * (1 - f) },
     { p2 with pos := q2pos,
               vel := p2.vel - rel_vel - vel_along_normal * elasticity
                        + vel_along_tangent * (1 - f) })

/-- The source struct `GridCell`: either a leaf, or a node with exactly
four children ordered upper-left, upper-right, lower-left, lower-right,
together with the particle references it kept and its rectangle corners. -/
inductive GridCell where
  | mk (children : Option (GridCell × GridCell × GridCell × GridCell))
       (particles : List Particle) (pos1 pos2 : Vec2)

/-- Field accessor for `children`. -/
def GridCell.children : GridCell → Option (GridCell × GridCell × GridCell × GridCell)
  | .mk c _ _ _ => c

/-- Field accessor for `particles`. -/
def GridCell.particles : GridCell → List Particle
  | .mk _ ps _ _ => ps

/-- Field accessor for `pos1`. -/
def GridCell.pos1 : GridCell → Vec2
  | .mk _ _ a _ => a

/-- Field accessor for `pos2`. -/
def GridCell.pos2 : GridCell → Vec2
  | .mk _ _ _ b => b

/-- The value `GridCell::default()`. -/
instance : Inhabited GridCell := ⟨.mk none [] ⟨0, 0⟩ ⟨0, 0⟩⟩

/-- The rectangle-shrinking prologue of `GridCell::new` (lines 47–61): given
the argument corners and the quadrant index `part`, move `p1`/`p2` so the
cell covers the selected quadrant of the argument rectangle. -/
def gridShrink (pos1 pos2 : Vec2) (part : ℕ) : Vec2 × Vec2 :=
  let size := pos2 - pos1
  (⟨if part = 2 ∨ part = 4 then pos1.x + size.x / 2 else pos1.x,
    if part = 3 ∨ part = 4 then pos1.y + size.y / 2 else pos1.y⟩,
   ⟨if part = 2 ∨ part = 4 then pos2.x else pos2.x - size.x / 2,
    if part = 3 ∨ part = 4 then pos2.y else pos2.y - size.y / 2⟩)

/-- The particle filter of `GridCell::new` (lines 66–71): keep the particles
whose centre lies strictly inside the rectangle. -/
def gridKeep (p1 p2 : Vec2) (particles : List Particle) : List Particle :=
  particles.filter fun q =>
    decide (p1.x < q.pos.x ∧ q.pos.x < p2.x ∧ p1.y < q.pos.y ∧ q.pos.y < p2.y)

/-- The constructor `GridCell::new` (lines 44–84), translated faithfully: shrink the
rectangle to quadrant `part`, keep the particles strictly inside, and if
more than six are kept create four children — each constructed from the
rectangle of the cell itself and an EMPTY particle list, exactly as the
source call `GridCell::new(cell.pos1, cell.pos2, i+1, Vec::new())` does. -/
def GridCell.new (pos1 pos2 : Vec2) (part : ℕ) (particles : List Particle) : GridCell :=
  let pr := gridShrink pos1 pos2 part
  if h : 6 < (gridKeep pr.1 pr.2 particles).length then
    GridCell.mk (some (GridCell.new pr.1 pr.2 1 [], GridCell.new pr.1 pr.2 2 [],
                       GridCell.new pr.1 pr.2 3 [], GridCell.new pr.1 pr.2 4 []))
      (gridKeep pr.1 pr.2 particles) pr.1 pr.2
  else
    GridCell.mk none (gridKeep pr.1 pr.2 particles) pr.1 pr.2
termination_by particles.length
decreasing_by
  all_goals
    simp only [gridKeep] at h
    have h7 : 6 < particles.length := lt_of_lt_of_le h (List.length_filter_le _ _)
    simp only [List.length_nil]
    omega

/-- The function `get_leaf_cells` (lines 266–278): depth-first list of childless cells. -/
def GridCell.leaves : GridCell → List GridCell
  | .mk none ps a b => [.mk none ps a b]
  | .mk (some (c1, c2, c3, c4)) _ _ _ =>
      c1.leaves ++ c2.leaves ++ c3.leaves ++ c4.leaves

/-- The source struct `State`. -/
structure State where
  particles : List Particle
  grid : GridCell
  gravity : Vec2
  friction : ℝ
  last_iter_count : ℕ

/-- The ambient host reads performed by `State::update`: `screen_width()`,
`screen_height()`, `is_mouse_button_down(Left)`, `mouse_position()` and
`mouse_delta_position()`, made explicit arguments of the embedding. -/
structure Env where
  width : ℝ
  height : ℝ
  mouseDown : Bool
  mousePos : Vec2
  mouseDelta : Vec2

/-- The per-particle body of the mouse-drag loop (lines 128–133). -/
def dragOne (mousePos mouseDelta : Vec2) (W H dt : ℝ) (p : Particle) : Particle :=
  if (mousePos - p.pos).length < p.radius then
    { p with vel := -mouseDelta * Vec2.mk W H / dt * (0.5 : ℝ), pos := mousePos }
  else p

/-- The mouse-drag stage of `State::update` (lines 125–135). -/
def dragStage (env : Env) (dt : ℝ) (ps : List Particle) : List Particle :=
  if env.mouseDown then
    ps.map (dragOne env.mousePos env.mouseDelta env.width env.height dt)
  else ps

/-- The gravity/integration step (lines 157–158): semi-implicit Euler. -/
def integrate (g : Vec2) (dt : ℝ) (p : Particle) : Particle :=
  let vel := p.vel + g * dt
  { p with vel := vel, pos := p.pos + vel * dt }

/-- The right-wall check (lines 161–167). -/
def wallRight (W f : ℝ) (p : Particle) : Particle :=
  if p.pos.x + p.radius > W then
    let q : Particle := { p with pos := ⟨W - p.radius, p.pos.y⟩ }
    if q.vel.x > 0 then
      { q with vel := ⟨q.vel.x * -elasticity, q.vel.y * (1 - f)⟩ }
    else q
  else p

/-- The left-wall check (lines 170–176). -/
def wallLeft (f : ℝ) (p : Particle) : Particle :=
  if p.pos.x - p.radius < 0 then
    let q : Particle := { p with pos := ⟨p.radius, p.pos.y⟩ }
    if q.vel.x < 0 then
      { q with vel := ⟨q.vel.x * -elasticity, q.vel.y * (1 - f)⟩ }
    else q
  else p

/-- The bottom-wall check (lines 179–185). -/
def wallBottom (H f : ℝ) (p : Particle) : Particle :=
  if p.pos.y + p.radius > H then
    let q : Particle := { p with pos := ⟨p.pos.x, H - p.radius⟩ }
    if q.vel.y > 0 then
      { q with vel := ⟨q.vel.x * (1 - f), q.vel.y * -elasticity⟩ }
    else q
  else p

/-- The top-wall check (lines 188–194). -/
def wallTop (f : ℝ) (p : Particle) : Particle :=
  if p.pos.y - p.radius < 0 then
    let q : Particle := { p with pos := ⟨p.pos.x, p.radius⟩ }
    if q.vel.y < 0 then
      { q with vel := ⟨q.vel.x * (1 - f), q.vel.y * -elasticity⟩ }
    else q
  else p

/-- The whole self-update block of a sub-step (lines 153–195): integrate,
then the four wall checks in source order. -/
def selfUpdate (g : Vec2) (f W H dt : ℝ) (p : Particle) : Particle :=
  wallTop f (wallBottom H f (wallLeft f (wallRight W f (integrate g dt p))))

/-- One iteration of the inner pair loop (lines 201–235): resolve the pair
`(i, j)` in place. -/
def pairAt (f : ℝ) (i j : ℕ) (ps : List Particle) : List Particle :=
  let r := pairCollide f (ps.getD i default) (ps.getD j default)
  (ps.set i r.1).set j r.2

/-- The pair loop for particle `i`: `for j in i+1..len`. -/
def pairLoop (f : ℝ) (i : ℕ) (ps : List Particle) : List Particle :=
  (List.range' (i + 1) (ps.length - (i + 1))).foldl
    (fun acc j => pairAt f i j acc) ps

/-- The body of `for i in 0..len` (lines 151–236): self-update particle `i`,
then — unless `i` is the last index — run its pair loop. -/
def stepIndex (g : Vec2) (f W H dt : ℝ) (ps : List Particle) (i : ℕ) : List Particle :=
  let ps1 := ps.set i (selfUpdate g f W H dt (ps.getD i default))
  if i = ps.length - 1 then ps1 else pairLoop f i ps1

/-- One sub-step (lines 148–237 loop body): all particle indices in order. -/
def substep (g : Vec2) (f W H dt : ℝ) (ps : List Particle) : List Particle :=
  (List.range ps.length).foldl (stepIndex g f W H dt) ps

/-- The adaptive sub-step count (lines 137–144): `desired_fps = 60`,
`iter_count = ((last * (1/60) / dt) as usize).max(1)` when `last ≠ 0`,
else `1`.  The `as usize` cast of a non-negative value is `Nat.floor`. -/
def iterCount (last : ℕ) (dt : ℝ) : ℕ :=
  if last ≠ 0 then max ⌊(last : ℝ) * (1 / 60) / dt⌋₊ 1 else 1

/-- The method `State::update` (lines 119–238). -/
def State.update (s : State) (env : Env) (dt : ℝ) : State :=
  let parts0 := dragStage env dt s.particles
  let n := iterCount s.last_iter_count dt
  let dts := dt / (n : ℝ)
  { s with
      particles := (substep s.gravity s.friction env.width env.height dts)^[n] parts0,
      last_iter_count := n }

/-- A whole run: fold `State::update` over a sequence of per-frame inputs. -/
def runFrames (s : State) (frames : List (Env × ℝ)) : State :=
  frames.foldl (fun st fr => st.update fr.1 fr.2) s

/-- The containment invariant of the spec (section 8):
`r ≤ pos.x ≤ W − r` and `r ≤ pos.y ≤ H − r`. -/
def contained (W H : ℝ) (p : Particle) : Prop :=
  p.radius ≤ p.pos.x ∧ p.pos.x ≤ W - p.radius ∧
  p.radius ≤ p.pos.y ∧ p.pos.y ≤ H - p.radius

/-! ## General helper lemmas -/

theorem sqrtEval (a b : ℝ) (hb : 0 ≤ b) (h : a = b ^ 2) : Real.sqrt a = b := by
  rw [h]; exact Real.sqrt_sq hb

theorem Vec2.length_sub_comm (u v : Vec2) : (u - v).length = (v - u).length := by
  simp only [Vec2.length, Vec2.dot, Vec2.sub_x, Vec2.sub_y]
  congr 1
  ring

/-- A vector of length at least `0.01` normalises to a unit vector. -/
theorem Vec2.normalize_unit (v : Vec2) (h : ¬ v.length < 0.01) :
    v.normalize.dot v.normalize = 1 := by
  have hnn : 0 ≤ v.x * v.x + v.y * v.y :=
    add_nonneg (mul_self_nonneg _) (mul_self_nonneg _)
  have hpos : (0 : ℝ) < v.length := lt_of_lt_of_le (by norm_num) (not_lt.mp h)
  have hne : v.length ≠ 0 := ne_of_gt hpos
  have hsq : v.length * v.length = v.x * v.x + v.y * v.y := by
    simpa only [Vec2.length, Vec2.dot] using Real.mul_self_sqrt hnn
  simp only [Vec2.normalize, Vec2.dot, Vec2.smul_x, Vec2.smul_y]
  field_simp
  linarith [hsq]

/-! ## C3: degenerate pairs are skipped -/

/-- C3 (amended): every pair with `overlap < 0`, and every pair with centre
distance `d < 0.01`, is skipped by the pair-collision step: both particles
are returned unchanged (so in exact arithmetic the zero-length normal is
never formed).  The source tests `overlap < 0.0`, not `overlap ≤ 0`. -/
theorem pairCollide_skips_degenerate (f : ℝ) (p1 p2 : Particle)
    (h : p1.radius + p2.radius - (p1.pos - p2.pos).length < 0 ∨
         (p1.pos - p2.pos).length < 0.01) :
    pairCollide f p1 p2 = (p1, p2) := by
  rcases h with h | h
  · simp only [pairCollide, if_pos h]
  · by_cases h1 : p1.radius + p2.radius - (p1.pos - p2.pos).length < 0
    · simp only [pairCollide, if_pos h1]
    · simp only [pairCollide, if_neg h1, if_pos h]

/-- Two coincident particles at `(400,400)` with zero velocity. -/
def c3Coin : Particle := ⟨⟨400, 400⟩, ⟨0, 0⟩, 10, WHITE⟩

theorem pairCollide_skips_degenerate_witness :
    (c3Coin.pos - c3Coin.pos).length < 0.01 ∧
    pairCollide 0 c3Coin c3Coin = (c3Coin, c3Coin) := by
  have hdot : (c3Coin.pos - c3Coin.pos).dot (c3Coin.pos - c3Coin.pos) = 0 := by
    norm_num [Vec2.dot, c3Coin]
  have h : (c3Coin.pos - c3Coin.pos).length < 0.01 := by
    rw [Vec2.length, hdot, Real.sqrt_zero]; norm_num
  exact ⟨h, pairCollide_skips_degenerate 0 c3Coin c3Coin (Or.inr h)⟩

/-- Touching particle for the C3 counterexample. -/
def c3a : Particle := ⟨⟨400, 400⟩, ⟨0, 0⟩, 10, WHITE⟩

/-- Touching particle for the C3 counterexample, moving right. -/
def c3b : Particle := ⟨⟨420, 400⟩, ⟨2, 0⟩, 10, WHITE⟩

/-- C3 counterexample: a pair with `overlap = 0` exactly is NOT skipped:
the velocity of the first particle changes (from `0` to `1.8`), because the
source skips only on `overlap < 0.0`, not on `overlap ≤ 0`. -/
theorem pairCollide_touching_not_skipped :
    c3a.radius + c3b.radius - (c3a.pos - c3b.pos).length = 0 ∧
    (pairCollide 0 c3a c3b).1.vel.x ≠ c3a.vel.x := by
  have hdot : (c3a.pos - c3b.pos).dot (c3a.pos - c3b.pos) = 400 := by
    norm_num [Vec2.dot, c3a, c3b]
  have hlen : (c3a.pos - c3b.pos).length = 20 := by
    rw [Vec2.length, hdot]; exact sqrtEval 400 20 (by norm_num) (by norm_num)
  have hdot2 : (c3b.pos - c3a.pos).dot (c3b.pos - c3a.pos) = 400 := by
    norm_num [Vec2.dot, c3a, c3b]
  have hlen2 : (c3b.pos - c3a.pos).length = 20 := by
    rw [Vec2.length, hdot2]; exact sqrtEval 400 20 (by norm_num) (by norm_num)
  have h1 : ¬ (c3a.radius + c3b.radius - (c3a.pos - c3b.pos).length < 0) := by
    rw [hlen]; norm_num [c3a, c3b]
  have h2 : ¬ ((c3a.pos - c3b.pos).length < 0.01) := by rw [hlen]; norm_num
  refine ⟨by rw [hlen]; norm_num [c3a, c3b], ?_⟩
  simp only [pairCollide, if_neg h1, if_neg h2, Vec2.normalize, hlen2]
  norm_num [c3a, c3b, Vec2.dot, elasticity, hlen]

/-! ## Pair-collision velocity algebra (shared by C4 and C9) -/

/-- Centre-of-mass: the pair step preserves the sum of the two velocities
(hence in particular its component along the collision normal). -/
theorem pairCollide_com (f : ℝ) (p1 p2 : Particle)
    (h1 : ¬ (p1.radius + p2.radius - (p1.pos - p2.pos).length < 0))
    (h2 : ¬ ((p1.pos - p2.pos).length < 0.01)) :
    ((pairCollide f p1 p2).1.vel + (pairCollide f p1 p2).2.vel).dot
        ((p2.pos - p1.pos).normalize)
      = (p1.vel + p2.vel).dot ((p2.pos - p1.pos).normalize) := by
  simp only [pairCollide, if_neg h1, if_neg h2]
  simp [Vec2.dot]
  try ring

/-- The relative velocity along the normal is reversed and scaled by the
elasticity. -/
theorem pairCollide_normal_rev (f : ℝ) (p1 p2 : Particle)
    (h1 : ¬ (p1.radius + p2.radius - (p1.pos - p2.pos).length < 0))
    (h2 : ¬ ((p1.pos - p2.pos).length < 0.01)) :
    ((pairCollide f p1 p2).2.vel - (pairCollide f p1 p2).1.vel).dot
        ((p2.pos - p1.pos).normalize)
      = -elasticity * ((p2.vel - p1.vel).dot ((p2.pos - p1.pos).normalize)) := by
  have hsym : ¬ ((p2.pos - p1.pos).length < 0.01) := by
    rw [Vec2.length_sub_comm]; exact h2
  have hn : ((p2.pos - p1.pos).normalize).x * ((p2.pos - p1.pos).normalize).x
      + ((p2.pos - p1.pos).normalize).y * ((p2.pos - p1.pos).normalize).y = 1 :=
    Vec2.normalize_unit _ hsym
  simp only [pairCollide, if_neg h1, if_neg h2]
  simp [Vec2.dot]
  linear_combination
    ((-2) * (((p2.pos - p1.pos).normalize).x * ((p2.vel.x - p1.vel.x) * 0.5)
            + ((p2.pos - p1.pos).normalize).y * ((p2.vel.y - p1.vel.y) * 0.5))
      * (elasticity + 1 - f)) * hn

/-- The relative velocity component along the tangent is scaled by `1 - f`. -/
theorem pairCollide_tangent (f : ℝ) (p1 p2 : Particle)
    (h1 : ¬ (p1.radius + p2.radius - (p1.pos - p2.pos).length < 0))
    (h2 : ¬ ((p1.pos - p2.pos).length < 0.01)) :
    ((pairCollide f p1 p2).2.vel - (pairCollide f p1 p2).1.vel)
        - ((p2.pos - p1.pos).normalize)
            * (((pairCollide f p1 p2).2.vel - (pairCollide f p1 p2).1.vel).dot
                ((p2.pos - p1.pos).normalize))
      = ((p2.vel - p1.vel)
          - ((p2.pos - p1.pos).normalize)
              * ((p2.vel - p1.vel).dot ((p2.pos - p1.pos).normalize))) * (1 - f) := by
  have hsym : ¬ ((p2.pos - p1.pos).length < 0.01) := by
    rw [Vec2.length_sub_comm]; exact h2
  have hn : ((p2.pos - p1.pos).normalize).x * ((p2.pos - p1.pos).normalize).x
      + ((p2.pos - p1.pos).normalize).y * ((p2.pos - p1.pos).normalize).y = 1 :=
    Vec2.normalize_unit _ hsym
  simp only [pairCollide, if_neg h1, if_neg h2]
  refine Vec2.ext ?_ ?_
  · simp [Vec2.dot]
    linear_combination
      (((p2.pos - p1.pos).normalize).x * 2
        * (((p2.pos - p1.pos).normalize).x * ((p2.vel.x - p1.vel.x) * 0.5)
            + ((p2.pos - p1.pos).normalize).y * ((p2.vel.y - p1.vel.y) * 0.5))
        * (elasticity + 1 - f)) * hn
  · simp [Vec2.dot]
    linear_combination
      (((p2.pos - p1.pos).normalize).y * 2
        * (((p2.pos - p1.pos).normalize).x * ((p2.vel.x - p1.vel.x) * 0.5)
            + ((p2.pos - p1.pos).normalize).y * ((p2.vel.y - p1.vel.y) * 0.5))
        * (elasticity + 1 - f)) * hn

/-- C4: for a non-degenerate colliding pair the velocity update preserves
the sum of the velocities along the collision normal, reverses the normal
relative velocity scaled by the elasticity, and scales the tangential
relative velocity by `1 - f`. -/
theorem pair_velocity_relations (f : ℝ) (p1 p2 : Particle)
    (h1 : ¬ (p1.radius + p2.radius - (p1.pos - p2.pos).length < 0))
    (h2 : ¬ ((p1.pos - p2.pos).length < 0.01)) :
    ((pairCollide f p1 p2).1.vel + (pairCollide f p1 p2).2.vel).dot
        ((p2.pos - p1.pos).normalize)
      = (p1.vel + p2.vel).dot ((p2.pos - p1.pos).normalize) ∧
    ((pairCollide f p1 p2).2.vel - (pairCollide f p1 p2).1.vel).dot
        ((p2.pos - p1.pos).normalize)
      = -elasticity * ((p2.vel - p1.vel).dot ((p2.pos - p1.pos).normalize)) ∧
    ((pairCollide f p1 p2).2.vel - (pairCollide f p1 p2).1.vel)
        - ((p2.pos - p1.pos).normalize)
            * (((pairCollide f p1 p2).2.vel - (pairCollide f p1 p2).1.vel).dot
                ((p2.pos - p1.pos).normalize))
      = ((p2.vel - p1.vel)
          - ((p2.pos - p1.pos).normalize)
              * ((p2.vel - p1.vel).dot ((p2.pos - p1.pos).normalize))) * (1 - f) :=
  ⟨pairCollide_com f p1 p2 h1 h2, pairCollide_normal_rev f p1 p2 h1 h2,
   pairCollide_tangent f p1 p2 h1 h2⟩

/-- Left particle of a head-on colliding pair (used by witnesses). -/
def cp1 : Particle := ⟨⟨395, 400⟩, ⟨100, 0⟩, 10, WHITE⟩

/-- Right particle of a head-on colliding pair (used by witnesses). -/
def cp2 : Particle := ⟨⟨405, 400⟩, ⟨-100, 0⟩, 10, WHITE⟩

theorem cpLen : (cp1.pos - cp2.pos).length = 10 := by
  have hdot : (cp1.pos - cp2.pos).dot (cp1.pos - cp2.pos) = 100 := by
    norm_num [Vec2.dot, cp1, cp2]
  rw [Vec2.length, hdot]; exact sqrtEval 100 10 (by norm_num) (by norm_num)

theorem cpH1 : ¬ (cp1.radius + cp2.radius - (cp1.pos - cp2.pos).length < 0) := by
  rw [cpLen]; norm_num [cp1, cp2]

theorem cpH2 : ¬ ((cp1.pos - cp2.pos).length < 0.01) := by
  rw [cpLen]; norm_num

theorem pair_velocity_relations_witness :
    (¬ (cp1.radius + cp2.radius - (cp1.pos - cp2.pos).length < 0)) ∧
    (¬ ((cp1.pos - cp2.pos).length < 0.01)) ∧
    (((pairCollide (1/2) cp1 cp2).1.vel + (pairCollide (1/2) cp1 cp2).2.vel).dot
        ((cp2.pos - cp1.pos).normalize)
      = (cp1.vel + cp2.vel).dot ((cp2.pos - cp1.pos).normalize) ∧
    ((pairCollide (1/2) cp1 cp2).2.vel - (pairCollide (1/2) cp1 cp2).1.vel).dot
        ((cp2.pos - cp1.pos).normalize)
      = -elasticity * ((cp2.vel - cp1.vel).dot ((cp2.pos - cp1.pos).normalize)) ∧
    ((pairCollide (1/2) cp1 cp2).2.vel - (pairCollide (1/2) cp1 cp2).1.vel)
        - ((cp2.pos - cp1.pos).normalize)
            * (((pairCollide (1/2) cp1 cp2).2.vel - (pairCollide (1/2) cp1 cp2).1.vel).dot
                ((cp2.pos - cp1.pos).normalize))
      = ((cp2.vel - cp1.vel)
          - ((cp2.pos - cp1.pos).normalize)
              * ((cp2.vel - cp1.vel).dot ((cp2.pos - cp1.pos).normalize))) * ((1 : ℝ) - 1/2)) :=
  ⟨cpH1, cpH2, pair_velocity_relations (1/2) cp1 cp2 cpH1 cpH2⟩

/-! ## C5: the adaptive iteration controller -/

/-- C5: when `last_iter_count` is nonzero (and `dt > 0`, the regime in which
the `as usize` cast is the floor), `State::update` computes
`N = max(1, floor(last_iter_count * (1/60) / dt))` and stores it back. -/
theorem update_iter_count (s : State) (env : Env) (dt : ℝ) (hdt : 0 < dt)
    (hlast : s.last_iter_count ≠ 0) :
    (s.update env dt).last_iter_count =
      max 1 ⌊(s.last_iter_count : ℝ) * (1 / 60) / dt⌋₊ := by
  have : (s.update env dt).last_iter_count = iterCount s.last_iter_count dt := rfl
  rw [this, iterCount, if_pos hlast, Nat.max_comm]

/-- State for the C5 witness: previous frame used 4 sub-steps. -/
def c5State : State := ⟨[], default, ⟨0, 0⟩, 0, 4⟩

/-- Environment for the C5 witness. -/
def c5Env : Env := ⟨800, 600, false, ⟨0, 0⟩, ⟨0, 0⟩⟩

theorem update_iter_count_witness :
    (0 : ℝ) < 2 / 60 ∧ c5State.last_iter_count ≠ 0 ∧
    (c5State.update c5Env (2 / 60)).last_iter_count = 2 := by
  have h1 : (0 : ℝ) < 2 / 60 := by norm_num
  have h2 : c5State.last_iter_count ≠ 0 := by simp [c5State]
  refine ⟨h1, h2, ?_⟩
  rw [update_iter_count c5State c5Env (2 / 60) h1 h2]
  have h3 : ((c5State.last_iter_count : ℝ) * (1 / 60) / (2 / 60)) = ((2 : ℕ) : ℝ) := by
    show ((4 : ℕ) : ℝ) * (1 / 60) / (2 / 60) = ((2 : ℕ) : ℝ)
    norm_num
  rw [h3, Nat.floor_natCast]
  omega

/-! ## C8: determinism -/

/-- C8: `State::update`, iterated over a frame sequence, is deterministic:
identical initial states and identical per-frame inputs (viewport, pointer
state, frame delta) yield identical results.  In the embedding every host
read is an explicit argument, so the result is a function of them alone. -/
theorem runFrames_deterministic (s1 s2 : State) (f1 f2 : List (Env × ℝ))
    (hs : s1 = s2) (hf : f1 = f2) : runFrames s1 f1 = runFrames s2 f2 := by
  rw [hs, hf]

/-- Initial state for the C8 witness. -/
def c8State : State := ⟨[⟨⟨400, 100⟩, ⟨0, 0⟩, 10, WHITE⟩], default, ⟨10, 400⟩, 0, 0⟩

/-- Frame inputs for the C8 witness. -/
def c8Frames : List (Env × ℝ) := [(⟨800, 600, false, ⟨0, 0⟩, ⟨0, 0⟩⟩, 1 / 60)]

theorem runFrames_deterministic_witness :
    c8State = c8State ∧ c8Frames = c8Frames ∧
    runFrames c8State c8Frames = runFrames c8State c8Frames :=
  ⟨rfl, rfl, runFrames_deterministic c8State c8State c8Frames c8Frames rfl rfl⟩

/-! ## C6: wall contact behaviour -/

/-- C6: for each of the four walls — if the bounding disc of the particle
crosses the wall, its centre is snapped so the disc is flush inside (the
other coordinate untouched); if additionally the velocity component into
the wall is positive, that component is scaled by `-elasticity` and the
tangential component by `1 - friction`; otherwise the velocity is left
unchanged (snap only). -/
theorem wall_contact_spec (W H f : ℝ) (p : Particle) :
    (p.pos.x + p.radius > W →
      (wallRight W f p).pos = ⟨W - p.radius, p.pos.y⟩ ∧
      (p.vel.x > 0 →
        (wallRight W f p).vel = ⟨p.vel.x * -elasticity, p.vel.y * (1 - f)⟩) ∧
      (¬ p.vel.x > 0 → (wallRight W f p).vel = p.vel)) ∧
    (p.pos.x - p.radius < 0 →
      (wallLeft f p).pos = ⟨p.radius, p.pos.y⟩ ∧
      (p.vel.x < 0 →
        (wallLeft f p).vel = ⟨p.vel.x * -elasticity, p.vel.y * (1 - f)⟩) ∧
      (¬ p.vel.x < 0 → (wallLeft f p).vel = p.vel)) ∧
    (p.pos.y + p.radius > H →
      (wallBottom H f p).pos = ⟨p.pos.x, H - p.radius⟩ ∧
      (p.vel.y > 0 →
        (wallBottom H f p).vel = ⟨p.vel.x * (1 - f), p.vel.y * -elasticity⟩) ∧
      (¬ p.vel.y > 0 → (wallBottom H f p).vel = p.vel)) ∧
    (p.pos.y - p.radius < 0 →
      (wallTop f p).pos = ⟨p.pos.x, p.radius⟩ ∧
      (p.vel.y < 0 →
        (wallTop f p).vel = ⟨p.vel.x * (1 - f), p.vel.y * -elasticity⟩) ∧
      (¬ p.vel.y < 0 → (wallTop f p).vel = p.vel)) := by
  refine ⟨fun hc => ?_, fun hc => ?_, fun hc => ?_, fun hc => ?_⟩ <;>
    refine ⟨?_, fun hv => ?_, fun hv => ?_⟩ <;>
    simp only [wallRight, wallLeft, wallBottom, wallTop, if_pos hc] <;>
    first
      | (rw [if_pos hv])
      | (rw [if_neg hv])
      | (split_ifs <;> rfl)

/-- Particle crossing the right wall for the C6 witness. -/
def c6p : Particle := ⟨⟨795, 300⟩, ⟨5, 2⟩, 10, WHITE⟩

theorem wall_contact_spec_witness :
    c6p.pos.x + c6p.radius > 800 ∧ c6p.vel.x > 0 ∧
    (wallRight 800 0 c6p).pos = ⟨800 - c6p.radius, c6p.pos.y⟩ ∧
    (wallRight 800 0 c6p).vel = ⟨c6p.vel.x * -elasticity, c6p.vel.y * (1 - 0)⟩ := by
  have hc : c6p.pos.x + c6p.radius > 800 := by norm_num [c6p]
  have hv : c6p.vel.x > 0 := by norm_num [c6p]
  have h := (wall_contact_spec 800 600 0 c6p).1 hc
  exact ⟨hc, hv, h.1, h.2.1 hv⟩

/-! ## C9: elasticity is the fixed constant 0.8 -/

/-- C9: the coefficient applied by every wall reflection and by the
pair-collision normal reversal is the literal `0.8`, whatever the friction
of the state, the viewport, or the particles are — mirroring the source, where
`elasticity` is a local `let` binding in `State::update`, not a field of
`State` (the embedded `State` likewise has no elasticity field), so no
input can change it. -/
theorem elasticity_fixed (W H f : ℝ) (p p1 p2 : Particle) :
    elasticity = 0.8 ∧
    (p.pos.x + p.radius > W → p.vel.x > 0 →
      (wallRight W f p).vel.x = -(0.8) * p.vel.x) ∧
    (p.pos.x - p.radius < 0 → p.vel.x < 0 →
      (wallLeft f p).vel.x = -(0.8) * p.vel.x) ∧
    (p.pos.y + p.radius > H → p.vel.y > 0 →
      (wallBottom H f p).vel.y = -(0.8) * p.vel.y) ∧
    (p.pos.y - p.radius < 0 → p.vel.y < 0 →
      (wallTop f p).vel.y = -(0.8) * p.vel.y) ∧
    (¬ (p1.radius + p2.radius - (p1.pos - p2.pos).length < 0) →
     ¬ ((p1.pos - p2.pos).length < 0.01) →
      ((pairCollide f p1 p2).2.vel - (pairCollide f p1 p2).1.vel).dot
          ((p2.pos - p1.pos).normalize)
        = -(0.8) * ((p2.vel - p1.vel).dot ((p2.pos - p1.pos).normalize))) := by
  refine ⟨rfl, fun hc hv => ?_, fun hc hv => ?_, fun hc hv => ?_, fun hc hv => ?_,
    fun h1 h2 => ?_⟩
  · simp only [wallRight, if_pos hc]; rw [if_pos hv]; show p.vel.x * -elasticity = _
    rw [elasticity]; ring
  · simp only [wallLeft, if_pos hc]; rw [if_pos hv]; show p.vel.x * -elasticity = _
    rw [elasticity]; ring
  · simp only [wallBottom, if_pos hc]; rw [if_pos hv]; show p.vel.y * -elasticity = _
    rw [elasticity]; ring
  · simp only [wallTop, if_pos hc]; rw [if_pos hv]; show p.vel.y * -elasticity = _
    rw [elasticity]; ring
  · have h := pairCollide_normal_rev f p1 p2 h1 h2
    rw [h, elasticity]

/-- Particle crossing the left wall for the C9 witness. -/
def c9pL : Particle := ⟨⟨5, 300⟩, ⟨-3, 2⟩, 10, WHITE⟩

/-- Particle crossing the bottom wall for the C9 witness. -/
def c9pB : Particle := ⟨⟨400, 595⟩, ⟨2, 4⟩, 10, WHITE⟩

/-- Particle crossing the top wall for the C9 witness. -/
def c9pT : Particle := ⟨⟨400, 5⟩, ⟨2, -4⟩, 10, WHITE⟩

theorem elasticity_fixed_witness :
    elasticity = 0.8 ∧
    (wallRight 800 (1/4) c6p).vel.x = -(0.8) * c6p.vel.x ∧
    (wallLeft (1/4) c9pL).vel.x = -(0.8) * c9pL.vel.x ∧
    (wallBottom 600 (1/4) c9pB).vel.y = -(0.8) * c9pB.vel.y ∧
    (wallTop (1/4) c9pT).vel.y = -(0.8) * c9pT.vel.y ∧
    ((pairCollide (1/4) cp1 cp2).2.vel - (pairCollide (1/4) cp1 cp2).1.vel).dot
        ((cp2.pos - cp1.pos).normalize)
      = -(0.8) * ((cp2.vel - cp1.vel).dot ((cp2.pos - cp1.pos).normalize)) := by
  refine ⟨rfl, ?_, ?_, ?_, ?_, ?_⟩
  · exact (elasticity_fixed 800 600 (1/4) c6p cp1 cp2).2.1
      (by norm_num [c6p]) (by norm_num [c6p])
  · exact (elasticity_fixed 800 600 (1/4) c9pL cp1 cp2).2.2.1
      (by norm_num [c9pL]) (by norm_num [c9pL])
  · exact (elasticity_fixed 800 600 (1/4) c9pB cp1 cp2).2.2.2.1
      (by norm_num [c9pB]) (by norm_num [c9pB])
  · exact (elasticity_fixed 800 600 (1/4) c9pT cp1 cp2).2.2.2.2.1
      (by norm_num [c9pT]) (by norm_num [c9pT])
  · exact (elasticity_fixed 800 600 (1/4) c6p cp1 cp2).2.2.2.2.2 cpH1 cpH2

/-! ## C7: mouse drag -/

/-- C7: while the primary button is held, EVERY particle whose centre lies
within its radius of the pointer position (the strict source test
`(mouse_pos - pos).length() < radius`) has its position set to the pointer
position and its velocity set to `-pointerDelta * (W, H) / dt * 0.5`. -/
theorem drag_affects_all (env : Env) (dt : ℝ) (ps : List Particle) (i : ℕ)
    (hdown : env.mouseDown = true) (hi : i < ps.length)
    (hsel : (env.mousePos - (ps.getD i default).pos).length
              < (ps.getD i default).radius) :
    (dragStage env dt ps).getD i default =
      { ps.getD i default with
          vel := -env.mouseDelta * Vec2.mk env.width env.height / dt * (0.5 : ℝ),
          pos := env.mousePos } := by
  have hlen : i < (ps.map (dragOne env.mousePos env.mouseDelta
      env.width env.height dt)).length := by simpa using hi
  simp only [dragStage, hdown, if_true]
  rw [List.getD_eq_getElem _ default hlen, List.getElem_map,
    ← List.getD_eq_getElem ps default hi]
  simp only [dragOne]
  rw [if_pos hsel]

/-- Environment for the C7 witness: button held, pointer at `(400,300)`. -/
def c7Env : Env := ⟨800, 600, true, ⟨400, 300⟩, ⟨1/10, 1/5⟩⟩

/-- Two particles, both under the pointer. -/
def c7ps : List Particle := [⟨⟨400, 300⟩, ⟨1, 1⟩, 10, WHITE⟩, ⟨⟨400, 300⟩, ⟨2, 2⟩, 10, WHITE⟩]

theorem drag_affects_all_witness :
    c7Env.mouseDown = true ∧ 0 < c7ps.length ∧ 1 < c7ps.length ∧
    (c7Env.mousePos - (c7ps.getD 0 default).pos).length < (c7ps.getD 0 default).radius ∧
    (c7Env.mousePos - (c7ps.getD 1 default).pos).length < (c7ps.getD 1 default).radius ∧
    (dragStage c7Env ((1:ℝ)/60) c7ps).getD 0 default =
      { c7ps.getD 0 default with
          vel := -c7Env.mouseDelta * Vec2.mk c7Env.width c7Env.height / ((1:ℝ)/60) * (0.5 : ℝ),
          pos := c7Env.mousePos } ∧
    (dragStage c7Env ((1:ℝ)/60) c7ps).getD 1 default =
      { c7ps.getD 1 default with
          vel := -c7Env.mouseDelta * Vec2.mk c7Env.width c7Env.height / ((1:ℝ)/60) * (0.5 : ℝ),
          pos := c7Env.mousePos } := by
  have hdown : c7Env.mouseDown = true := rfl
  have h0 : (0 : ℕ) < c7ps.length := by norm_num [c7ps]
  have h1 : (1 : ℕ) < c7ps.length := by norm_num [c7ps]
  have hdot0 : (c7Env.mousePos - (c7ps.getD 0 default).pos).dot
      (c7Env.mousePos - (c7ps.getD 0 default).pos) = 0 := by
    norm_num [Vec2.dot, c7Env, c7ps, List.getD]
  have hdot1 : (c7Env.mousePos - (c7ps.getD 1 default).pos).dot
      (c7Env.mousePos - (c7ps.getD 1 default).pos) = 0 := by
    norm_num [Vec2.dot, c7Env, c7ps, List.getD]
  have hsel0 : (c7Env.mousePos - (c7ps.getD 0 default).pos).length
      < (c7ps.getD 0 default).radius := by
    rw [Vec2.length, hdot0, Real.sqrt_zero]; norm_num [c7ps, List.getD]
  have hsel1 : (c7Env.mousePos - (c7ps.getD 1 default).pos).length
      < (c7ps.getD 1 default).radius := by
    rw [Vec2.length, hdot1, Real.sqrt_zero]; norm_num [c7ps, List.getD]
  exact ⟨hdown, h0, h1, hsel0, hsel1,
    drag_affects_all c7Env ((1:ℝ)/60) c7ps 0 hdown h0 hsel0,
    drag_affects_all c7Env ((1:ℝ)/60) c7ps 1 hdown h1 hsel1⟩

/-! ## C1: the spatial tree never records particles in leaves -/

/-- Constructing a cell from an empty particle list yields a childless cell
holding no particles. -/
theorem gridNew_nil (a b : Vec2) (part : ℕ) :
    GridCell.new a b part [] =
      GridCell.mk none [] (gridShrink a b part).1 (gridShrink a b part).2 := by
  rw [GridCell.new]
  simp [gridKeep]

/-- Whenever `GridCell::new` splits (more than six particles land strictly
inside the shrunken rectangle), every leaf of the resulting tree carries an
empty particle list: the children are built from `Vec::new()`. -/
theorem gridNew_split_leaves (a b : Vec2) (part : ℕ) (particles : List Particle)
    (h : 6 < (gridKeep (gridShrink a b part).1 (gridShrink a b part).2 particles).length) :
    (GridCell.new a b part particles).leaves.map GridCell.particles = [[], [], [], []] := by
  rw [GridCell.new, dif_pos h]
  rw [gridNew_nil, gridNew_nil, gridNew_nil, gridNew_nil]
  simp [GridCell.leaves, GridCell.particles]

/-- Seven particles strictly inside `(0,0)–(800,800)`. -/
def c1ps : List Particle :=
  [⟨⟨100, 100⟩, ⟨0, 0⟩, 10, WHITE⟩, ⟨⟨101, 100⟩, ⟨0, 0⟩, 10, WHITE⟩,
   ⟨⟨102, 100⟩, ⟨0, 0⟩, 10, WHITE⟩, ⟨⟨103, 100⟩, ⟨0, 0⟩, 10, WHITE⟩,
   ⟨⟨104, 100⟩, ⟨0, 0⟩, 10, WHITE⟩, ⟨⟨105, 100⟩, ⟨0, 0⟩, 10, WHITE⟩,
   ⟨⟨106, 100⟩, ⟨0, 0⟩, 10, WHITE⟩]

/-- C1 fails on the code: building the tree over seven particles that all
lie strictly inside the cell rectangle produces four leaves that all carry
NO particles — no particle is recorded in any leaf, because the source
passes `Vec::new()` to the children it creates. -/
theorem gridNew_leaves_empty_failing_input :
    c1ps.length = 7 ∧
    (GridCell.new ⟨0, 0⟩ ⟨1600, 1600⟩ 1 c1ps).leaves.map GridCell.particles
      = [[], [], [], []] := by
  refine ⟨rfl, gridNew_split_leaves _ _ _ _ ?_⟩
  norm_num [gridKeep, gridShrink, c1ps, List.filter_cons, decide_eq_true_eq]

/-! ## C2 machinery: wall passes establish containment -/

theorem wallRight_radius (W f : ℝ) (p : Particle) : (wallRight W f p).radius = p.radius := by
  simp only [wallRight]; split_ifs <;> rfl

theorem wallLeft_radius (f : ℝ) (p : Particle) : (wallLeft f p).radius = p.radius := by
  simp only [wallLeft]; split_ifs <;> rfl

theorem wallBottom_radius (H f : ℝ) (p : Particle) : (wallBottom H f p).radius = p.radius := by
  simp only [wallBottom]; split_ifs <;> rfl

theorem wallTop_radius (f : ℝ) (p : Particle) : (wallTop f p).radius = p.radius := by
  simp only [wallTop]; split_ifs <;> rfl

theorem integrate_radius (g : Vec2) (dt : ℝ) (p : Particle) :
    (integrate g dt p).radius = p.radius := rfl

theorem selfUpdate_radius (g : Vec2) (f W H dt : ℝ) (p : Particle) :
    (selfUpdate g f W H dt p).radius = p.radius := by
  unfold selfUpdate
  rw [wallTop_radius, wallBottom_radius, wallLeft_radius, wallRight_radius, integrate_radius]

theorem dragOne_radius (mp md : Vec2) (W H dt : ℝ) (p : Particle) :
    (dragOne mp md W H dt p).radius = p.radius := by
  simp only [dragOne]; split_ifs <;> rfl

theorem pairCollide_radius1 (f : ℝ) (p1 p2 : Particle) :
    (pairCollide f p1 p2).1.radius = p1.radius := by
  simp only [pairCollide]; split_ifs <;> rfl

theorem pairCollide_radius2 (f : ℝ) (p1 p2 : Particle) :
    (pairCollide f p1 p2).2.radius = p2.radius := by
  simp only [pairCollide]; split_ifs <;> rfl

theorem wallRight_le (W f : ℝ) (p : Particle) :
    (wallRight W f p).pos.x ≤ W - p.radius := by
  simp only [wallRight]
  split_ifs <;> (try dsimp only) <;> linarith

theorem wallRight_pos_y (W f : ℝ) (p : Particle) : (wallRight W f p).pos.y = p.pos.y := by
  simp only [wallRight]; split_ifs <;> rfl

theorem wallLeft_ge (f : ℝ) (p : Particle) : p.radius ≤ (wallLeft f p).pos.x := by
  simp only [wallLeft]
  split_ifs <;> (try dsimp only) <;> linarith

theorem wallLeft_le (f : ℝ) (p : Particle) (hW : 2 * p.radius ≤ W)
    (h : p.pos.x ≤ W - p.radius) : (wallLeft f p).pos.x ≤ W - p.radius := by
  simp only [wallLeft]
  split_ifs <;> (try dsimp only) <;> linarith

theorem wallLeft_pos_y (f : ℝ) (p : Particle) : (wallLeft f p).pos.y = p.pos.y := by
  simp only [wallLeft]; split_ifs <;> rfl

theorem wallBottom_le (H f : ℝ) (p : Particle) :
    (wallBottom H f p).pos.y ≤ H - p.radius := by
  simp only [wallBottom]
  split_ifs <;> (try dsimp only) <;> linarith

theorem wallBottom_pos_x (H f : ℝ) (p : Particle) :
    (wallBottom H f p).pos.x = p.pos.x := by
  simp only [wallBottom]; split_ifs <;> rfl

theorem wallTop_ge (f : ℝ) (p : Particle) : p.radius ≤ (wallTop f p).pos.y := by
  simp only [wallTop]
  split_ifs <;> (try dsimp only) <;> linarith

theorem wallTop_le (f : ℝ) (p : Particle) (hH : 2 * p.radius ≤ H)
    (h : p.pos.y ≤ H - p.radius) : (wallTop f p).pos.y ≤ H - p.radius := by
  simp only [wallTop]
  split_ifs <;> (try dsimp only) <;> linarith

theorem wallTop_pos_x (f : ℝ) (p : Particle) : (wallTop f p).pos.x = p.pos.x := by
  simp only [wallTop]; split_ifs <;> rfl

/-- After the four wall checks of a sub-step, a particle whose diameter fits
the viewport satisfies the containment invariant. -/
theorem walls_contained (W H f : ℝ) (p : Particle)
    (hW : 2 * p.radius ≤ W) (hH : 2 * p.radius ≤ H) :
    contained W H (wallTop f (wallBottom H f (wallLeft f (wallRight W f p)))) := by
  set a := wallRight W f p with ha
  set b := wallLeft f a with hb
  set c := wallBottom H f b with hc
  have hra : a.radius = p.radius := wallRight_radius W f p
  have hrb : b.radius = p.radius := by rw [hb, wallLeft_radius, hra]
  have hrc : c.radius = p.radius := by rw [hc, wallBottom_radius, hrb]
  have hrd : (wallTop f c).radius = p.radius := by rw [wallTop_radius, hrc]
  have hx1 : p.radius ≤ b.pos.x := by
    have := wallLeft_ge f a
    rwa [hra] at this
  have hx2 : b.pos.x ≤ W - p.radius := by
    have h1 : a.pos.x ≤ W - p.radius := wallRight_le W f p
    have := wallLeft_le (W := W) f a (by rw [hra]; exact hW) (by rw [hra]; exact h1)
    rwa [hra] at this
  have hcx : c.pos.x = b.pos.x := wallBottom_pos_x H f b
  have hdx : (wallTop f c).pos.x = c.pos.x := wallTop_pos_x f c
  have hy1 : c.pos.y ≤ H - p.radius := by
    have := wallBottom_le H f b
    rwa [hrb] at this
  have hy2 : p.radius ≤ (wallTop f c).pos.y := by
    have := wallTop_ge f c
    rwa [hrc] at this
  have hy3 : (wallTop f c).pos.y ≤ H - p.radius := by
    have := wallTop_le (H := H) f c (by rw [hrc]; exact hH) (by rw [hrc]; exact hy1)
    rwa [hrc] at this
  refine ⟨?_, ?_, ?_, ?_⟩
  · rw [hrd, hdx, hcx]; exact hx1
  · rw [hrd, hdx, hcx]; exact hx2
  · rw [hrd]; exact hy2
  · rw [hrd]; exact hy3

/-! ## C2 machinery: length preservation -/

theorem pairAt_length (f : ℝ) (i j : ℕ) (ps : List Particle) :
    (pairAt f i j ps).length = ps.length := by
  simp [pairAt]

theorem pairFold_length (f : ℝ) (i : ℕ) (js : List ℕ) :
    ∀ ps : List Particle,
      (js.foldl (fun acc j => pairAt f i j acc) ps).length = ps.length := by
  induction js with
  | nil => intro ps; rfl
  | cons j js ih => intro ps; rw [List.foldl_cons, ih, pairAt_length]

theorem pairLoop_length (f : ℝ) (i : ℕ) (ps : List Particle) :
    (pairLoop f i ps).length = ps.length :=
  pairFold_length f i _ ps

theorem stepIndex_length (g : Vec2) (f W H dt : ℝ) (ps : List Particle) (i : ℕ) :
    (stepIndex g f W H dt ps i).length = ps.length := by
  simp only [stepIndex]
  split_ifs
  · simp
  · rw [pairLoop_length]; simp

theorem stepFold_length (g : Vec2) (f W H dt : ℝ) (is : List ℕ) :
    ∀ ps : List Particle,
      (is.foldl (stepIndex g f W H dt) ps).length = ps.length := by
  induction is with
  | nil => intro ps; rfl
  | cons i is ih => intro ps; rw [List.foldl_cons, ih, stepIndex_length]

theorem substep_length (g : Vec2) (f W H dt : ℝ) (ps : List Particle) :
    (substep g f W H dt ps).length = ps.length :=
  stepFold_length g f W H dt _ ps

theorem iterate_substep_length (g : Vec2) (f W H dt : ℝ) (n : ℕ) (ps : List Particle) :
    ((substep g f W H dt)^[n] ps).length = ps.length := by
  induction n with
  | zero => rfl
  | succ m ih => rw [Function.iterate_succ_apply', substep_length, ih]

theorem dragStage_length (env : Env) (dt : ℝ) (ps : List Particle) :
    (dragStage env dt ps).length = ps.length := by
  unfold dragStage; split_ifs <;> simp

/-! ## C2 machinery: the diameter bound is preserved by every stage -/

/-- Every particle in the list has a diameter that fits the viewport. -/
def radiiOK (W H : ℝ) (ps : List Particle) : Prop :=
  ∀ q ∈ ps, 2 * q.radius ≤ W ∧ 2 * q.radius ≤ H

theorem radiiOK_getD (W H : ℝ) (ps : List Particle) (h : radiiOK W H ps)
    (i : ℕ) (hi : i < ps.length) :
    2 * (ps.getD i default).radius ≤ W ∧ 2 * (ps.getD i default).radius ≤ H := by
  rw [List.getD_eq_getElem _ _ hi]
  exact h _ (List.getElem_mem hi)

theorem radiiOK_dragStage (W H : ℝ) (env : Env) (dt : ℝ) (ps : List Particle)
    (h : radiiOK W H ps) : radiiOK W H (dragStage env dt ps) := by
  unfold dragStage
  split_ifs
  · intro q hq
    rw [List.mem_map] at hq
    obtain ⟨p0, hp0, rfl⟩ := hq
    rw [dragOne_radius]
    exact h p0 hp0
  · exact h

theorem radiiOK_pairAt (W H f : ℝ) (i j : ℕ) (ps : List Particle)
    (hi : i < ps.length) (hj : j < ps.length) (h : radiiOK W H ps) :
    radiiOK W H (pairAt f i j ps) := by
  intro q hq
  unfold pairAt at hq
  rcases List.mem_or_eq_of_mem_set hq with hq1 | rfl
  · rcases List.mem_or_eq_of_mem_set hq1 with hq2 | rfl
    · exact h q hq2
    · rw [pairCollide_radius1]
      exact radiiOK_getD W H ps h i hi
  · rw [pairCollide_radius2]
    exact radiiOK_getD W H ps h j hj

theorem radiiOK_pairFold (W H f : ℝ) (i : ℕ) (js : List ℕ) :
    ∀ ps : List Particle, (∀ j ∈ js, j < ps.length) → i < ps.length →
      radiiOK W H ps →
      radiiOK W H (js.foldl (fun acc j => pairAt f i j acc) ps) := by
  induction js with
  | nil => intro ps _ _ h; exact h
  | cons j js ih =>
      intro ps hjs hi h
      rw [List.foldl_cons]
      refine ih _ ?_ ?_ ?_
      · intro j' hj'
        rw [pairAt_length]
        exact hjs j' (List.mem_cons_of_mem _ hj')
      · rw [pairAt_length]; exact hi
      · exact radiiOK_pairAt W H f i j ps hi (hjs j (List.mem_cons_self _ _)) h

theorem radiiOK_pairLoop (W H f : ℝ) (i : ℕ) (ps : List Particle)
    (hi : i < ps.length) (h : radiiOK W H ps) : radiiOK W H (pairLoop f i ps) := by
  refine radiiOK_pairFold W H f i _ ps ?_ hi h
  intro j hj
  rw [List.mem_range'_1] at hj
  omega

theorem radiiOK_stepIndex (W H : ℝ) (g : Vec2) (f dt : ℝ) (ps : List Particle) (i : ℕ)
    (hi : i < ps.length) (h : radiiOK W H ps) :
    radiiOK W H (stepIndex g f W H dt ps i) := by
  have hset : radiiOK W H (ps.set i (selfUpdate g f W H dt (ps.getD i default))) := by
    intro q hq
    rcases List.mem_or_eq_of_mem_set hq with hq1 | rfl
    · exact h q hq1
    · rw [selfUpdate_radius]
      exact radiiOK_getD W H ps h i hi
  simp only [stepIndex]
  split_ifs
  · exact hset
  · exact radiiOK_pairLoop W H f i _ (by simpa using hi) hset

theorem radiiOK_stepFold (W H : ℝ) (g : Vec2) (f dt : ℝ) (is : List ℕ) :
    ∀ ps : List Particle, (∀ i ∈ is, i < ps.length) → radiiOK W H ps →
      radiiOK W H (is.foldl (stepIndex g f W H dt) ps) := by
  induction is with
  | nil => intro ps _ h; exact h
  | cons i is ih =>
      intro ps his h
      rw [List.foldl_cons]
      refine ih _ ?_ ?_
      · intro i' hi'
        rw [stepIndex_length]
        exact his i' (List.mem_cons_of_mem _ hi')
      · exact radiiOK_stepIndex W H g f dt ps i (his i (List.mem_cons_self _ _)) h

theorem radiiOK_substep (W H : ℝ) (g : Vec2) (f dt : ℝ) (ps : List Particle)
    (h : radiiOK W H ps) : radiiOK W H (substep g f W H dt ps) := by
  refine radiiOK_stepFold W H g f dt _ ps ?_ h
  intro i hi
  rwa [List.mem_range] at hi

theorem radiiOK_iterate (W H : ℝ) (g : Vec2) (f dt : ℝ) (n : ℕ) (ps : List Particle)
    (h : radiiOK W H ps) : radiiOK W H ((substep g f W H dt)^[n] ps) := by
  induction n with
  | zero => exact h
  | succ m ih => rw [Function.iterate_succ_apply']; exact radiiOK_substep W H g f dt _ ih

/-! ## C2 machinery: the final move of the last particle is its own wall pass -/

theorem substep_getD_last (g : Vec2) (f W H dt : ℝ) (ps : List Particle)
    (hne : ps ≠ []) :
    (substep g f W H dt ps).getD (ps.length - 1) default
      = selfUpdate g f W H dt
          (((List.range (ps.length - 1)).foldl (stepIndex g f W H dt) ps).getD
            (ps.length - 1) default) := by
  have hn : 0 < ps.length := List.length_pos.mpr hne
  unfold substep
  have hsplit : List.range ps.length = List.range (ps.length - 1) ++ [ps.length - 1] := by
    conv_lhs => rw [show ps.length = (ps.length - 1) + 1 by omega]
    exact List.range_succ _
  rw [hsplit, List.foldl_append]
  set acc := (List.range (ps.length - 1)).foldl (stepIndex g f W H dt) ps with hacc
  have hlen : acc.length = ps.length := stepFold_length g f W H dt _ ps
  simp only [List.foldl_cons, List.foldl_nil]
  simp only [stepIndex]
  rw [if_pos (by rw [hlen])]
  have hlt : ps.length - 1 < (acc.set (ps.length - 1)
      (selfUpdate g f W H dt (acc.getD (ps.length - 1) default))).length := by
    rw [List.length_set, hlen]; omega
  rw [List.getD_eq_getElem _ _ hlt, List.getElem_set_self]

theorem substep_last_contained (g : Vec2) (f W H dt : ℝ) (ps : List Particle)
    (hne : ps ≠ []) (hok : radiiOK W H ps) :
    contained W H ((substep g f W H dt ps).getD (ps.length - 1) default) := by
  rw [substep_getD_last g f W H dt ps hne]
  set acc := (List.range (ps.length - 1)).foldl (stepIndex g f W H dt) ps with hacc
  have hlen : acc.length = ps.length := stepFold_length g f W H dt _ ps
  have hok' : radiiOK W H acc := by
    refine radiiOK_stepFold W H g f dt _ ps ?_ hok
    intro i hi
    rw [List.mem_range] at hi
    omega
  have hn : 0 < ps.length := List.length_pos.mpr hne
  obtain ⟨hW, hH⟩ := radiiOK_getD W H acc hok' (ps.length - 1) (by omega)
  have := walls_contained W H f (integrate g dt (acc.getD (ps.length - 1) default))
    (by rw [integrate_radius]; exact hW) (by rw [integrate_radius]; exact hH)
  exact this

/-! ## C2: containment after update -/

/-- C2 (amended): after `State::update`, the LAST particle satisfies the
containment invariant (its own wall pass is the final thing that moves it),
provided the diameter of every particle fits the viewport.  Earlier-indexed
particles can be pushed back out of bounds by the pair positional
correction, which runs after their wall pass — see the counterexample. -/
theorem update_last_particle_contained (s : State) (env : Env) (dt : ℝ)
    (hne : s.particles ≠ [])
    (hok : ∀ q ∈ s.particles, 2 * q.radius ≤ env.width ∧ 2 * q.radius ≤ env.height) :
    contained env.width env.height
      ((s.update env dt).particles.getD ((s.update env dt).particles.length - 1)
        default) := by
  have hup : (s.update env dt).particles
      = (substep s.gravity s.friction env.width env.height
          (dt / (iterCount s.last_iter_count dt : ℝ)))^[iterCount s.last_iter_count dt]
          (dragStage env dt s.particles) := rfl
  set dts := dt / (iterCount s.last_iter_count dt : ℝ)
  have hpos : 0 < iterCount s.last_iter_count dt := by
    unfold iterCount
    split_ifs
    · exact lt_of_lt_of_le Nat.one_pos (le_max_right _ _)
    · exact Nat.one_pos
  obtain ⟨m, hm⟩ : ∃ m, iterCount s.last_iter_count dt = m + 1 :=
    ⟨iterCount s.last_iter_count dt - 1, by omega⟩
  set ps0 := dragStage env dt s.particles with hps0
  have hlen0 : ps0.length = s.particles.length := dragStage_length env dt s.particles
  set mid := (substep s.gravity s.friction env.width env.height dts)^[m] ps0 with hmid
  have hlenmid : mid.length = s.particles.length := by
    rw [hmid, iterate_substep_length, hlen0]
  have hok0 : radiiOK env.width env.height ps0 :=
    radiiOK_dragStage env.width env.height env dt s.particles hok
  have hokmid : radiiOK env.width env.height mid :=
    radiiOK_iterate env.width env.height s.gravity s.friction dts m ps0 hok0
  have hnemid : mid ≠ [] := by
    intro hempty
    rw [hempty] at hlenmid
    exact hne (List.length_eq_zero.mp hlenmid.symm)
  have hiter : (s.update env dt).particles
      = substep s.gravity s.friction env.width env.height dts mid := by
    rw [hup, hm, Function.iterate_succ_apply']
  rw [hiter]
  have hlenfin : (substep s.gravity s.friction env.width env.height dts mid).length
      = mid.length := substep_length _ _ _ _ _ _
  have hidx : (substep s.gravity s.friction env.width env.height dts mid).length - 1
      = mid.length - 1 := by rw [hlenfin]
  rw [hidx]
  exact substep_last_contained s.gravity s.friction env.width env.height dts mid
    hnemid hokmid

/-- Single particle over the floor, for the C2 witness. -/
def c2wState : State := ⟨[⟨⟨400, 100⟩, ⟨0, 0⟩, 10, WHITE⟩], default, ⟨0, 400⟩, 0, 0⟩

/-- Environment for the C2 witness. -/
def c2wEnv : Env := ⟨800, 600, false, ⟨0, 0⟩, ⟨0, 0⟩⟩

theorem update_last_particle_contained_witness :
    c2wState.particles ≠ [] ∧
    (∀ q ∈ c2wState.particles,
      2 * q.radius ≤ c2wEnv.width ∧ 2 * q.radius ≤ c2wEnv.height) ∧
    contained c2wEnv.width c2wEnv.height
      ((c2wState.update c2wEnv (1/60)).particles.getD
        ((c2wState.update c2wEnv (1/60)).particles.length - 1) default) := by
  have h1 : c2wState.particles ≠ [] := by simp [c2wState]
  have h2 : ∀ q ∈ c2wState.particles,
      2 * q.radius ≤ c2wEnv.width ∧ 2 * q.radius ≤ c2wEnv.height := by
    intro q hq
    simp only [c2wState, List.mem_singleton] at hq
    subst hq
    norm_num [c2wEnv]
  exact ⟨h1, h2, update_last_particle_contained c2wState c2wEnv (1/60) h1 h2⟩

/-! ## C2 counterexample: pair correction pushes a particle out of bounds -/

/-- Particle resting flush against the right wall. -/
def c2xP0 : Particle := ⟨⟨790, 400⟩, ⟨0, 0⟩, 10, WHITE⟩

/-- Overlapping particle just to its left. -/
def c2xP1 : Particle := ⟨⟨785, 400⟩, ⟨0, 0⟩, 10, WHITE⟩

/-- State for the C2 counterexample: no gravity, no friction, first frame. -/
def c2xState : State := ⟨[c2xP0, c2xP1], default, ⟨0, 0⟩, 0, 0⟩

/-- Environment for the C2 counterexample: 800×800 viewport, mouse up. -/
def c2xEnv : Env := ⟨800, 800, false, ⟨0, 0⟩, ⟨0, 0⟩⟩

/-- Particle 0 after the sub-step: pushed out to `x = 797.5`. -/
def c2xQ0 : Particle := ⟨⟨1595/2, 400⟩, ⟨0, 0⟩, 10, WHITE⟩

/-- Particle 1 after the sub-step. -/
def c2xQ1 : Particle := ⟨⟨1555/2, 400⟩, ⟨0, 0⟩, 10, WHITE⟩

theorem c2xSelf0 : selfUpdate ⟨0, 0⟩ 0 800 800 1 c2xP0 = c2xP0 := by
  norm_num [selfUpdate, integrate, wallRight, wallLeft, wallBottom, wallTop,
    c2xP0, Particle.mk.injEq, Vec2.mk.injEq, Vec2.mk_add_mk, Vec2.mk_sub_mk,
    Vec2.mk_mul_mk, Vec2.mk_smul, Vec2.mk_div]

theorem c2xSelf1 : selfUpdate ⟨0, 0⟩ 0 800 800 1 c2xQ1 = c2xQ1 := by
  norm_num [selfUpdate, integrate, wallRight, wallLeft, wallBottom, wallTop,
    c2xQ1, Particle.mk.injEq, Vec2.mk.injEq, Vec2.mk_add_mk, Vec2.mk_sub_mk,
    Vec2.mk_mul_mk, Vec2.mk_smul, Vec2.mk_div]

theorem c2xPair : pairCollide 0 c2xP0 c2xP1 = (c2xQ0, c2xQ1) := by
  have hdot : (c2xP0.pos - c2xP1.pos).dot (c2xP0.pos - c2xP1.pos) = 25 := by
    norm_num [Vec2.dot, c2xP0, c2xP1]
  have hdist : (c2xP0.pos - c2xP1.pos).length = 5 := by
    rw [Vec2.length, hdot]; exact sqrtEval 25 5 (by norm_num) (by norm_num)
  have hdot2 : (c2xP1.pos - c2xP0.pos).dot (c2xP1.pos - c2xP0.pos) = 25 := by
    norm_num [Vec2.dot, c2xP0, c2xP1]
  have hdist2 : (c2xP1.pos - c2xP0.pos).length = 5 := by
    rw [Vec2.length, hdot2]; exact sqrtEval 25 5 (by norm_num) (by norm_num)
  simp only [pairCollide, Vec2.normalize, hdist, hdist2]
  norm_num [c2xP0, c2xP1, c2xQ0, c2xQ1, Vec2.dot, elasticity,
    Particle.mk.injEq, Vec2.mk.injEq, Vec2.mk_add_mk, Vec2.mk_sub_mk,
    Vec2.mk_mul_mk, Vec2.mk_smul, Vec2.mk_div]

theorem c2xSubstep : substep ⟨0, 0⟩ 0 800 800 1 [c2xP0, c2xP1] = [c2xQ0, c2xQ1] := by
  have hrange : List.range ([c2xP0, c2xP1] : List Particle).length = [0, 1] := rfl
  unfold substep
  rw [hrange]
  simp only [List.foldl_cons, List.foldl_nil]
  have hstep0 : stepIndex ⟨0, 0⟩ 0 800 800 1 [c2xP0, c2xP1] 0 = [c2xQ0, c2xQ1] := by
    simp only [stepIndex, List.getD_cons_zero, c2xSelf0, List.set_cons_zero]
    rw [if_neg (by norm_num)]
    simp only [pairLoop, pairAt]
    have hr : List.range' (0 + 1) (([c2xP0, c2xP1] : List Particle).length - (0 + 1))
        = [1] := rfl
    rw [hr]
    simp only [List.foldl_cons, List.foldl_nil, List.getD_cons_zero,
      List.getD_cons_succ, c2xPair, List.set_cons_zero, List.set_cons_succ]
  rw [hstep0]
  have hstep1 : stepIndex ⟨0, 0⟩ 0 800 800 1 [c2xQ0, c2xQ1] 1 = [c2xQ0, c2xQ1] := by
    simp only [stepIndex, List.getD_cons_zero, List.getD_cons_succ, c2xSelf1,
      List.set_cons_zero, List.set_cons_succ]
    rw [if_pos (by norm_num)]
  rw [hstep1]

theorem c2xUpdate : (c2xState.update c2xEnv 1).particles = [c2xQ0, c2xQ1] := by
  have hic : iterCount c2xState.last_iter_count 1 = 1 := by
    simp [iterCount, c2xState]
  have hdrag : dragStage c2xEnv 1 c2xState.particles = [c2xP0, c2xP1] := by
    simp [dragStage, c2xEnv, c2xState]
  have hup : (c2xState.update c2xEnv 1).particles
      = (substep c2xState.gravity c2xState.friction c2xEnv.width c2xEnv.height
          ((1 : ℝ) / (iterCount c2xState.last_iter_count 1 : ℝ)))^[iterCount
            c2xState.last_iter_count 1]
          (dragStage c2xEnv 1 c2xState.particles) := rfl
  rw [hup, hic, hdrag]
  have hdts : ((1 : ℝ) / ((1 : ℕ) : ℝ)) = 1 := by norm_num
  rw [hdts, Function.iterate_one]
  exact c2xSubstep

/-- C2 counterexample: after `State::update` on two overlapping particles
next to the right wall, particle 0 sits at `x = 797.5 > W − r = 790`: the
pair positional correction runs after the wall pass of particle 0 and pushes it
back out, so the containment invariant fails. -/
theorem update_containment_counterexample :
    ((c2xState.update c2xEnv 1).particles.getD 0 default).pos.x = 1595 / 2 ∧
    ¬ contained c2xEnv.width c2xEnv.height
        ((c2xState.update c2xEnv 1).particles.getD 0 default) := by
  rw [c2xUpdate]
  constructor
  · rfl
  · intro h
    have := h.2.1
    norm_num [c2xQ0, c2xEnv] at this

/-! ## C10: frame effect of update -/

/-- C10: `State::update` leaves the gravity vector, the friction
coefficient and the spatial grid untouched; only `particles` and
`last_iter_count` are written. -/
theorem update_preserves_config (s : State) (env : Env) (dt : ℝ) :
    (s.update env dt).gravity = s.gravity ∧
    (s.update env dt).friction = s.friction ∧
    (s.update env dt).grid = s.grid :=
  ⟨rfl, rfl, rfl⟩

end

